import Mathlib

/-!
Shallow embedding of `conrad/utils.py`: the `PsradSymlinks` scoped
symlink provisioner, the `with_psrad_symlinks` wrapper, and the
`append_timestep_netcdf` helper.  The working directory is modelled as an
association list of named entries; `os` calls become explicit state
passing and fallible operations return `Except`.
-/

/-- A directory entry: a regular file with some content, or a symbolic
link with a target path.  Directories are out of scope (the module only
ever creates and removes files and symlinks in the working directory). -/
inductive Entry : Type
  | file (content : String)
  | symlink (target : String)
deriving DecidableEq, Repr

/-- The working directory: an association list from entry name to entry.
Names are unique in any well-formed directory; the operations below
preserve that. -/
abbrev Fs := List (String × Entry)

/-- Embedding of `os.path.isfile(name)` relative to the working
directory: an entry with that name exists (all modelled entries are
files or symlinks to existing files). -/
def isfile (fs : Fs) (name : String) : Bool :=
  fs.any (fun e => e.1 = name)

/-- Embedding of `os.symlink(target, name)`: add a symlink entry.  In
the source this is only called when `isfile name` is false, so the
FileExistsError branch is unreachable and the operation is total here. -/
def os_symlink (target name : String) (fs : Fs) : Fs :=
  fs ++ [(name, Entry.symlink target)]

/-- Embedding of `os.remove(name)`: delete the entry with that name, or
fail with FileNotFoundError when no such entry exists. -/
def os_remove (name : String) (fs : Fs) : Except String Fs :=
  if isfile fs name then
    Except.ok (fs.filter (fun e => ¬ e.1 = name))
  else
    Except.error ("FileNotFoundError: " ++ name)

/-- Embedding of `os.path.join(p, f)`. -/
def path_join (p f : String) : String := p ++ "/" ++ f

/-- State of a `PsradSymlinks` instance: the resource-root path read
from the environment, the fixed required-file list, and the record of
aliases this instance created (`self._created_files`). -/
structure PsradSymlinks : Type where
  psrad_path : String
  psrad_files : List String
  created_files : List String
deriving DecidableEq, Repr

/-- The fixed required-file list set in `PsradSymlinks.__init__`. -/
def psradFileList : List String :=
  ["ECHAM6_CldOptProps.nc", "rrtmg_lw.nc", "rrtmg_sw.nc", "libpsrad.so.1"]

/-- Embedding of `PsradSymlinks.__init__`: `env` is
`os.environ.get('PSRAD_PATH')`.  When the key is absent the constructor
logs and re-raises the lookup error; otherwise it stores the path, the
file list and an empty created-aliases record.  The second component is
the list of log messages emitted. -/
def PsradSymlinks.init (env : Option String) :
    Except String PsradSymlinks × List String :=
  match env with
  | none =>
      (Except.error "KeyError: PSRAD_PATH",
       ["Path to PSRAD directory not set."])
  | some p =>
      (Except.ok ⟨p, psradFileList, []⟩, [])

/-- The loop body of `PsradSymlinks.__enter__`: for each required
filename in order, when no entry with that name exists, create a symlink
to `psrad_path/f` and append `f` to the created-aliases record. -/
def enterLoop (names : List String) (st : PsradSymlinks) (fs : Fs) :
    PsradSymlinks × Fs :=
  match names with
  | [] => (st, fs)
  | f :: rest =>
      if isfile fs f then
        enterLoop rest st fs
      else
        enterLoop rest
          { st with created_files := st.created_files ++ [f] }
          (os_symlink (path_join st.psrad_path f) f fs)

/-- Embedding of `PsradSymlinks.__enter__`. -/
def PsradSymlinks.enter (st : PsradSymlinks) (fs : Fs) :
    PsradSymlinks × Fs :=
  enterLoop st.psrad_files st fs

/-- The loop of `PsradSymlinks.__exit__`: remove each recorded filename
in order; a failing removal aborts the loop and propagates. -/
def removeAll (names : List String) (fs : Fs) :
    Except String Unit × Fs :=
  match names with
  | [] => (Except.ok (), fs)
  | f :: rest =>
      match os_remove f fs with
      | Except.ok fs' => removeAll rest fs'
      | Except.error e => (Except.error e, fs)

/-- Embedding of `PsradSymlinks.__exit__`: the loop removes every file
in `created_files`; the instance state itself is not modified (the
record is not cleared by the source). -/
def PsradSymlinks.exitScope (st : PsradSymlinks) (fs : Fs) :
    PsradSymlinks × Except String Unit × Fs :=
  let r := removeAll st.created_files fs
  (st, r.1, r.2)

/-- Embedding of `with_psrad_symlinks(func)` applied to argument `a` in
environment `env` on working directory `fs`.  The wrapped callable
`func` may read and modify the working directory and either return a
value or raise; the wrapper constructs a `PsradSymlinks`, enters the
scope, runs `func`, and always runs the exit handler, with an exit-time
error taking precedence (as an exception raised inside `__exit__`
does in Python).  The middle component is the emitted log. -/
def with_psrad_symlinks {α β : Type}
    (func : α → Fs → Except String β × Fs)
    (env : Option String) (a : α) (fs : Fs) :
    Except String β × List String × Fs :=
  match PsradSymlinks.init env with
  | (Except.error e, logs) => (Except.error e, logs, fs)
  | (Except.ok st, logs) =>
      let p1 := st.enter fs
      let r := func a p1.2
      let p2 := p1.1.exitScope r.2
      match p2.2.1 with
      | Except.ok _ => (r.1, logs, p2.2.2)
      | Except.error e => (Except.error e, logs, p2.2.2)

/-! Helper lemmas about the provisioner loops. -/

/-- Appending fresh entries does not change `isfile` at other names. -/
theorem isfile_append_single (fs : Fs) (f g : String) (e : Entry)
    (hne : g ≠ f) : isfile (fs ++ [(f, e)]) g = isfile fs g := by
  have hfg : f ≠ g := fun h => hne h.symm
  simp [isfile, List.any_append, hfg]

/-- Characterisation of the `__enter__` loop: for a list of pairwise
distinct names it records exactly the names that were absent, in list
order, and appends exactly the corresponding symlinks to the working
directory. -/
theorem enterLoop_eq (names : List String) :
    ∀ (st : PsradSymlinks) (fs : Fs), names.Nodup →
    enterLoop names st fs =
      ({ st with created_files :=
           st.created_files ++ names.filter (fun f => ¬ isfile fs f) },
       fs ++ (names.filter (fun f => ¬ isfile fs f)).map
         (fun f => (f, Entry.symlink (path_join st.psrad_path f)))) := by
  induction names with
  | nil => intro st fs _; simp [enterLoop]
  | cons f rest ih =>
      intro st fs hnd
      have hnd' : rest.Nodup := hnd.of_cons
      have hf : f ∉ rest := by
        intro hmem
        exact (List.nodup_cons.mp hnd).1 hmem
      by_cases hfs : isfile fs f
      · have h1 : enterLoop (f :: rest) st fs = enterLoop rest st fs := by
          simp [enterLoop, hfs]
        rw [h1, ih st fs hnd']
        simp [List.filter_cons, hfs]
      · have h1 : enterLoop (f :: rest) st fs =
            enterLoop rest
              { st with created_files := st.created_files ++ [f] }
              (os_symlink (path_join st.psrad_path f) f fs) := by
          simp [enterLoop, hfs]
        rw [h1, ih _ _ hnd']
        have hfilter :
            rest.filter
              (fun g => ¬ isfile (os_symlink (path_join st.psrad_path f) f fs) g)
            = rest.filter (fun g => ¬ isfile fs g) := by
          apply List.filter_congr
          intro g hg
          have hne : g ≠ f := fun h => hf (h ▸ hg)
          simp [os_symlink, isfile_append_single fs f g _ hne]
        rw [hfilter]
        simp [List.filter_cons, hfs, os_symlink, List.append_assoc]

/-- Removing one name leaves `isfile` at other names unchanged. -/
theorem isfile_filter_ne (fs : Fs) (f g : String) (hne : g ≠ f) :
    isfile (fs.filter (fun e => ¬ e.1 = f)) g = isfile fs g := by
  induction fs with
  | nil => rfl
  | cons e rest ih =>
      have ih' : (rest.any fun a => !decide (a.1 = f) && decide (a.1 = g))
          = rest.any fun e => decide (e.1 = g) := by
        simpa [isfile, List.any_filter, decide_not] using ih
      by_cases he : e.1 = f
      · have h2 : f ≠ g := fun h => hne h.symm
        simp [isfile, List.filter_cons, he, h2, List.any_filter,
          decide_not, ih']
      · simp [isfile, List.filter_cons, he, List.any_filter,
          decide_not, ih']

/-- Characterisation of the `__exit__` loop when every recorded name is
present and the names are pairwise distinct: it succeeds and removes
exactly the named entries, leaving every other entry in place. -/
theorem removeAll_eq (names : List String) :
    ∀ (fs : Fs), names.Nodup → (∀ f ∈ names, isfile fs f) →
    removeAll names fs =
      (Except.ok (), fs.filter (fun e => ¬ e.1 ∈ names)) := by
  induction names with
  | nil => intro fs _ _; simp [removeAll]
  | cons f rest ih =>
      intro fs hnd hall
      have hf : isfile fs f := hall f (List.mem_cons_self f rest)
      have hstep : removeAll (f :: rest) fs =
          removeAll rest (fs.filter (fun e => ¬ e.1 = f)) := by
        simp [removeAll, os_remove, hf]
      rw [hstep, ih _ hnd.of_cons]
      · congr 1
        rw [List.filter_filter]
        apply List.filter_congr
        intro e _
        by_cases he : e.1 = f <;> simp [he]
      · intro g hg
        have hne : g ≠ f := by
          intro h
          exact (List.nodup_cons.mp hnd).1 (h ▸ hg)
        rw [isfile_filter_ne fs f g hne]
        exact hall g (List.mem_cons_of_mem f hg)

/-- If some recorded name is absent, the removal loop fails. -/
theorem removeAll_error (names : List String) :
    ∀ (fs : Fs), (∃ f ∈ names, isfile fs f = false) →
    ∃ e, (removeAll names fs).1 = Except.error e := by
  induction names with
  | nil => intro fs h; rcases h with ⟨f, hf, _⟩; cases hf
  | cons f rest ih =>
      intro fs h
      by_cases hfs : isfile fs f
      · rcases h with ⟨g, hg, hgf⟩
        rcases List.mem_cons.mp hg with hq | hq
        · rw [hq] at hgf; rw [hfs] at hgf; cases hgf
        · have hg' : isfile (fs.filter (fun e => ¬ e.1 = f)) g = false := by
            have hne : g ≠ f := by
              intro hEq; rw [hEq, hfs] at hgf; cases hgf
            rw [isfile_filter_ne fs f g hne]; exact hgf
          have hstep : removeAll (f :: rest) fs =
              removeAll rest (fs.filter (fun e => ¬ e.1 = f)) := by
            simp [removeAll, os_remove, hfs]
          rw [hstep]
          exact ih _ ⟨g, hq, hg'⟩
      · refine ⟨"FileNotFoundError: " ++ f, ?_⟩
        simp [removeAll, os_remove, hfs]

/-- Entries of the original directory that are not among the required
filenames survive an enter/exit round trip verbatim. -/
theorem filter_not_mem_eq (fs : Fs) (names : List String)
    (h : ∀ f ∈ names, isfile fs f = false) :
    fs.filter (fun e => ¬ e.1 ∈ names) = fs := by
  apply List.filter_eq_self.mpr
  intro e he
  have hni : e.1 ∉ names := by
    intro hmem
    have h1 := h e.1 hmem
    have h2 : isfile fs e.1 = true := by
      apply List.any_eq_true.mpr
      exact ⟨e, he, by simp⟩
    rw [h1] at h2
    cases h2
  simpa using hni

/-! Shallow embedding of `append_timestep_netcdf`.  A netCDF file is a
time-dimension size together with named variables; each variable has a
declared axis list and its data, stored as rows along its first axis. -/

/-- A netCDF variable: declared axes (e.g. `["time", "plev"]`) and its
data as a list of rows along the first axis. -/
structure NcVar : Type where
  dims : List String
  vals : List (List Int)
deriving DecidableEq, Repr

/-- A netCDF file: the current size of the `time` dimension and the
named variables (the `time` coordinate variable is among them, with a
scalar per row). -/
structure NcFile : Type where
  timeSize : Nat
  vars : List (String × NcVar)
deriving DecidableEq, Repr

/-- Look up a variable by name (`nc[var]` / `nc.variables[var]`). -/
def getVar (nc : NcFile) (name : String) : Option NcVar :=
  (nc.vars.find? (fun kv => kv.1 = name)).map (fun kv => kv.2)

/-- Replace the named variable's payload. -/
def setVarList (vars : List (String × NcVar)) (name : String) (v : NcVar) :
    List (String × NcVar) :=
  vars.map (fun kv => if kv.1 = name then (kv.1, v) else kv)

/-- Write row `t` of a row list, the netCDF semantics of assigning at an
index on the unlimited dimension: existing rows are overwritten, and a
write past the end extends the variable (intermediate rows are fill). -/
def setRow (rows : List (List Int)) (t : Nat) (v : List Int) :
    List (List Int) :=
  if t < rows.length then rows.set t v
  else rows ++ List.replicate (t - rows.length) [] ++ [v]

/-- Write `vals` at index `t` of variable `name` along the time axis
(`nc.variables[name][t, :] = vals`, or `nc.variables['time'][t] = ts`
with a singleton row).  A write on the unlimited `time` dimension grows
the dimension to cover index `t`.  Fails when the variable is absent, as
the lookup does in the source. -/
def writeVarRow (nc : NcFile) (name : String) (t : Nat)
    (vals : List Int) : Except String NcFile :=
  match getVar nc name with
  | none => Except.error ("IndexError: " ++ name)
  | some v =>
      Except.ok
        { timeSize := max nc.timeSize (t + 1),
          vars := setVarList nc.vars name { v with vals := setRow v.vals t vals } }

/-- The variable loop of `append_timestep_netcdf`: for each supplied
variable in mapping order, look it up (a missing variable raises) and,
when its axes are exactly `(time, plev)`, write its values at row `t`;
otherwise skip it. -/
def appendVars (t : Nat) (nc : NcFile) :
    List (String × List Int) → Except String NcFile
  | [] => Except.ok nc
  | (name, vals) :: rest =>
      match getVar nc name with
      | none => Except.error ("IndexError: " ++ name)
      | some v =>
          if v.dims = ["time", "plev"] then
            match writeVarRow nc name t vals with
            | Except.error e => Except.error e
            | Except.ok nc' => appendVars t nc' rest
          else appendVars t nc rest

/-- Embedding of `append_timestep_netcdf(filename, data, timestamp)`
once the file has been opened: read the next free index `t` from the
`time` dimension, append the timestamp at `t` on the `time` variable,
then run the variable loop. -/
def append_timestep_netcdf (nc : NcFile)
    (data : List (String × List Int)) (timestamp : Int) :
    Except String NcFile :=
  let t := nc.timeSize
  match writeVarRow nc "time" t [timestamp] with
  | Except.error e => Except.error e
  | Except.ok nc1 => appendVars t nc1 data

/-! Helper lemmas about variable lookup and update. -/

/-- Unfolding of `setVarList` on a cons cell. -/
theorem setVarList_cons (kv : String × NcVar) (rest : List (String × NcVar))
    (n : String) (v : NcVar) :
    setVarList (kv :: rest) n v =
      (if kv.1 = n then (kv.1, v) else kv) :: setVarList rest n v := rfl

/-- Updating a variable replaces the found entry for that name. -/
theorem find_set_self (vars : List (String × NcVar)) (n : String) (v : NcVar) :
    List.find? (fun kv => kv.1 = n) (setVarList vars n v) =
      (List.find? (fun kv => kv.1 = n) vars).map (fun kv => (kv.1, v)) := by
  induction vars with
  | nil => rfl
  | cons kv rest ih =>
      rw [setVarList_cons]
      by_cases h : kv.1 = n
      · rw [if_pos h, List.find?_cons, List.find?_cons]
        simp [h]
      · rw [if_neg h, List.find?_cons, List.find?_cons]
        simp [h, ih]

/-- Updating one variable does not change lookups at other names. -/
theorem find_set_ne (vars : List (String × NcVar)) (n m : String)
    (v : NcVar) (hne : m ≠ n) :
    List.find? (fun kv => kv.1 = m) (setVarList vars n v) =
      List.find? (fun kv => kv.1 = m) vars := by
  induction vars with
  | nil => rfl
  | cons kv rest ih =>
      rw [setVarList_cons]
      by_cases h : kv.1 = n
      · have h2 : ¬ kv.1 = m := by
          rw [h]; exact fun hh => hne hh.symm
        rw [if_pos h, List.find?_cons, List.find?_cons]
        simp [h2, ih]
      · rw [if_neg h, List.find?_cons, List.find?_cons]
        by_cases h3 : kv.1 = m
        · simp [h3]
        · simp [h3, ih]

/-- Lookup after an update at the same name yields the new payload. -/
theorem getVar_set_self (sz : Nat) (vars : List (String × NcVar))
    (n : String) (v v' : NcVar)
    (h : getVar ⟨sz, vars⟩ n = some v) :
    ∀ sz2, getVar ⟨sz2, setVarList vars n v'⟩ n = some v' := by
  intro sz2
  simp only [getVar] at h ⊢
  rw [find_set_self]
  cases hf : List.find? (fun kv => kv.1 = n) vars with
  | none => rw [hf] at h; cases h
  | some kv => simp

/-- Lookup after an update at a different name is unchanged. -/
theorem getVar_set_ne (sz sz2 : Nat) (vars : List (String × NcVar))
    (n m : String) (v' : NcVar) (hne : m ≠ n) :
    getVar ⟨sz2, setVarList vars n v'⟩ m = getVar ⟨sz, vars⟩ m := by
  simp only [getVar]
  rw [find_set_ne vars n m v' hne]

/-- A `getVar` lookup only depends on the variable list. -/
theorem getVar_mk (nc : NcFile) (sz : Nat) (name : String) :
    getVar ⟨sz, nc.vars⟩ name = getVar nc name := rfl

/-- Elimination of `writeVarRow` when the variable exists. -/
theorem writeVarRow_ok (nc : NcFile) (n : String) (t : Nat)
    (vals : List Int) (v : NcVar) (h : getVar nc n = some v) :
    writeVarRow nc n t vals = Except.ok
      { timeSize := max nc.timeSize (t + 1),
        vars := setVarList nc.vars n { v with vals := setRow v.vals t vals } } := by
  simp [writeVarRow, h]

/-- The variable loop leaves the file unchanged when no supplied
variable has axes `(time, plev)`. -/
theorem appendVars_skip (data : List (String × List Int)) :
    ∀ (nc : NcFile) (t : Nat),
    (∀ kv ∈ data, (getVar nc kv.1).isSome ∧
      (getVar nc kv.1).map NcVar.dims ≠ some ["time", "plev"]) →
    appendVars t nc data = Except.ok nc := by
  induction data with
  | nil => intro nc t _; rfl
  | cons kv rest ih =>
      intro nc t h
      obtain ⟨hs, hd⟩ := h kv (List.mem_cons_self kv rest)
      obtain ⟨v, hv⟩ := Option.isSome_iff_exists.mp hs
      have hdne : ¬ v.dims = ["time", "plev"] := by
        rw [hv] at hd
        simpa using hd
      obtain ⟨n2, vals2⟩ := kv
      simp only [appendVars, hv, hdne, if_false]
      exact ih nc t (fun kv2 h2 => h kv2 (List.mem_cons_of_mem _ h2))

/-- Full characterisation of the variable loop: with distinct keys that
all name existing variables, and a time index already covered by the
dimension, the loop succeeds, preserves the time-dimension size, leaves
unsupplied variables untouched, and writes row `t` of exactly the
supplied variables whose axes are `(time, plev)`. -/
theorem appendVars_spec (data : List (String × List Int)) :
    ∀ (nc : NcFile) (t : Nat),
    (data.map Prod.fst).Nodup →
    (∀ kv ∈ data, (getVar nc kv.1).isSome) →
    t + 1 ≤ nc.timeSize →
    ∃ nc', appendVars t nc data = Except.ok nc' ∧
      nc'.timeSize = nc.timeSize ∧
      (∀ name, name ∉ data.map Prod.fst →
        getVar nc' name = getVar nc name) ∧
      (∀ name vals v, (name, vals) ∈ data → getVar nc name = some v →
        getVar nc' name =
          some (if v.dims = ["time", "plev"]
                then { v with vals := setRow v.vals t vals } else v)) := by
  induction data with
  | nil =>
      intro nc t _ _ _
      exact ⟨nc, rfl, rfl, fun _ _ => rfl,
        fun name vals v h => absurd h (List.not_mem_nil _)⟩
  | cons kv rest ih =>
      intro nc t hnod hpres hts
      obtain ⟨name, vals⟩ := kv
      have hnod' : (rest.map Prod.fst).Nodup := by
        simpa using hnod.of_cons
      have hname : name ∉ rest.map Prod.fst := by
        have h0 : (List.map Prod.fst ((name, vals) :: rest)).Nodup := hnod
        rw [List.map_cons] at h0
        exact (List.nodup_cons.mp h0).1
      have hp : (getVar nc name).isSome :=
        hpres (name, vals) (List.mem_cons_self _ _)
      obtain ⟨v, hv⟩ := Option.isSome_iff_exists.mp hp
      by_cases hd : v.dims = ["time", "plev"]
      · have hw := writeVarRow_ok nc name t vals v hv
        have hstep : appendVars t nc ((name, vals) :: rest) =
            appendVars t
              ⟨max nc.timeSize (t + 1),
               setVarList nc.vars name
                 { v with vals := setRow v.vals t vals }⟩ rest := by
          simp only [appendVars, hv, hd, if_true, hw]
        set nc1 : NcFile :=
          ⟨max nc.timeSize (t + 1),
           setVarList nc.vars name { v with vals := setRow v.vals t vals }⟩
          with hnc1
        have hsz1 : nc1.timeSize = nc.timeSize := by
          simp [hnc1, Nat.max_eq_left hts]
        have hgetne : ∀ m, m ≠ name → getVar nc1 m = getVar nc m := by
          intro m hm
          have h2 := getVar_set_ne nc.timeSize (max nc.timeSize (t + 1))
            nc.vars name m { v with vals := setRow v.vals t vals } hm
          calc getVar nc1 m
              = getVar ⟨nc.timeSize, nc.vars⟩ m := h2
            _ = getVar nc m := getVar_mk nc nc.timeSize m
        have hgetself : getVar nc1 name =
            some { v with vals := setRow v.vals t vals } := by
          exact getVar_set_self nc.timeSize nc.vars name v
            { v with vals := setRow v.vals t vals }
            ((getVar_mk nc nc.timeSize name).trans hv)
            (max nc.timeSize (t + 1))
        have hpres1 : ∀ kv2 ∈ rest, (getVar nc1 kv2.1).isSome := by
          intro kv2 h2
          have hne : kv2.1 ≠ name := by
            intro hEq
            exact hname (hEq ▸ List.mem_map_of_mem Prod.fst h2)
          rw [hgetne kv2.1 hne]
          exact hpres kv2 (List.mem_cons_of_mem _ h2)
        obtain ⟨nc', heq, hsz, huntouched, hwritten⟩ :=
          ih nc1 t hnod' hpres1 (by rw [hsz1]; exact hts)
        refine ⟨nc', by rw [hstep]; exact heq, by rw [hsz, hsz1], ?_, ?_⟩
        · intro m hm
          have hm1 : m ∉ rest.map Prod.fst := by
            intro hmem
            exact hm (by simp [hmem])
          have hmne : m ≠ name := by
            intro hEq
            exact hm (by simp [hEq])
          rw [huntouched m hm1, hgetne m hmne]
        · intro n2 vals2 v2 hmem hv2
          rcases List.mem_cons.mp hmem with hhead | htail
          · have hn2 : n2 = name := congrArg Prod.fst hhead
            have hvals2 : vals2 = vals := congrArg Prod.snd hhead
            subst hn2
            subst hvals2
            have hveq : v2 = v := (Option.some.inj (hv.symm.trans hv2)).symm
            subst hveq
            rw [huntouched n2 hname, hgetself, if_pos hd]
          · have hne : n2 ≠ name := by
              intro hEq
              exact hname (hEq ▸ List.mem_map_of_mem Prod.fst htail)
            have hv2' : getVar nc1 n2 = some v2 := by
              rw [hgetne n2 hne]; exact hv2
            exact hwritten n2 vals2 v2 htail hv2'
      · have hstep : appendVars t nc ((name, vals) :: rest) =
            appendVars t nc rest := by
          simp only [appendVars, hv, hd, if_false]
        have hpres1 : ∀ kv2 ∈ rest, (getVar nc kv2.1).isSome :=
          fun kv2 h2 => hpres kv2 (List.mem_cons_of_mem _ h2)
        obtain ⟨nc', heq, hsz, huntouched, hwritten⟩ :=
          ih nc t hnod' hpres1 hts
        refine ⟨nc', by rw [hstep]; exact heq, hsz, ?_, ?_⟩
        · intro m hm
          have hm1 : m ∉ rest.map Prod.fst := by
            intro hmem
            exact hm (by simp [hmem])
          exact huntouched m hm1
        · intro n2 vals2 v2 hmem hv2
          rcases List.mem_cons.mp hmem with hhead | htail
          · have hn2 : n2 = name := congrArg Prod.fst hhead
            subst hn2
            have hveq : v2 = v := (Option.some.inj (hv.symm.trans hv2)).symm
            subst hveq
            rw [huntouched n2 hname, hv2, if_neg hd]
          · exact hwritten n2 vals2 v2 htail hv2

/-- A name from `names` resolves after appending the corresponding
entries. -/
theorem isfile_append_map (fs : Fs) (names : List String)
    (E : String → Entry) (f : String) (hf : f ∈ names) :
    isfile (fs ++ names.map (fun g => (g, E g))) f = true := by
  simp only [isfile, List.any_append, Bool.or_eq_true]
  right
  exact List.any_eq_true.mpr ⟨(f, E f), List.mem_map_of_mem _ hf, by simp⟩

/-- After filtering out all entries named in `names`, such a name no
longer resolves. -/
theorem isfile_filter_mem (fs : Fs) (names : List String) (f : String)
    (hf : f ∈ names) :
    isfile (fs.filter (fun e => ¬ e.1 ∈ names)) f = false := by
  simp only [isfile]
  rw [List.any_eq_false]
  intro e he
  have h2 := List.of_mem_filter he
  by_cases hef : e.1 = f
  · exfalso
    rw [hef] at h2
    simp at h2
    exact h2 hf
  · simp [hef]

/-- Entries built from `names` are all dropped when filtering out a
superset of `names`. -/
theorem filter_map_links_nil (names : List String) (E : String → Entry)
    (sub : List String) (hsub : ∀ f ∈ names, f ∈ sub) :
    (names.map (fun g => (g, E g))).filter (fun e => ¬ e.1 ∈ sub) = [] := by
  apply List.filter_eq_nil_iff.mpr
  intro e he
  obtain ⟨g, hg, rfl⟩ := List.mem_map.mp he
  simp
  exact hsub g hg

/-! Claim theorems. -/

/-- C1: Acquire (`PsradSymlinks.__enter__`) walks the required-filename
list in order; for each name absent from the working directory it
creates a symlink aliasing `resource_root/filename` and appends the name
to the created-aliases record, and each name already present is left
untouched and unrecorded. -/
theorem acquire_creates_exactly_missing (path : String) (fs : Fs) :
    ((PsradSymlinks.mk path psradFileList []).enter fs).1.created_files
        = psradFileList.filter (fun f => ¬ isfile fs f)
    ∧ ((PsradSymlinks.mk path psradFileList []).enter fs).2
        = fs ++ (psradFileList.filter (fun f => ¬ isfile fs f)).map
            (fun f => (f, Entry.symlink (path_join path f)))
    ∧ ∀ f, isfile fs f = true →
        f ∉ ((PsradSymlinks.mk path psradFileList []).enter fs).1.created_files := by
  have h := enterLoop_eq psradFileList ⟨path, psradFileList, []⟩ fs (by decide)
  refine ⟨?_, ?_, ?_⟩
  · show (enterLoop psradFileList ⟨path, psradFileList, []⟩ fs).1.created_files = _
    rw [h]
    rfl
  · show (enterLoop psradFileList ⟨path, psradFileList, []⟩ fs).2 = _
    rw [h]
  · intro f hf hmem
    have h1 : ((PsradSymlinks.mk path psradFileList []).enter fs).1.created_files
        = psradFileList.filter (fun g => ¬ isfile fs g) := by
      show (enterLoop psradFileList ⟨path, psradFileList, []⟩ fs).1.created_files = _
      rw [h]
      rfl
    rw [h1] at hmem
    have := List.of_mem_filter hmem
    simp [hf] at this

/-- C2: Release (`PsradSymlinks.__exit__`) removes exactly the
filenames in the created-aliases record and nothing else: assuming the
recorded aliases are distinct and still present, release succeeds and
the resulting directory keeps precisely the entries whose names were not
recorded; pre-existing unrecorded files are untouched. -/
theorem release_removes_exactly_recorded (st : PsradSymlinks) (fs : Fs)
    (hnd : st.created_files.Nodup)
    (hall : ∀ f ∈ st.created_files, isfile fs f) :
    (st.exitScope fs).2.1 = Except.ok ()
    ∧ (st.exitScope fs).2.2
        = fs.filter (fun e => ¬ e.1 ∈ st.created_files) := by
  have h := removeAll_eq st.created_files fs hnd hall
  constructor
  · show (removeAll st.created_files fs).1 = _
    rw [h]
  · show (removeAll st.created_files fs).2 = _
    rw [h]

/-- C2 witness: a record holding one alias that is present, next to an
unrecorded pre-existing file, is released cleanly and only the recorded
alias disappears. -/
theorem release_removes_exactly_recorded_witness :
    (PsradSymlinks.mk "/data/psrad" psradFileList ["rrtmg_lw.nc"]).created_files.Nodup
    ∧ (∀ f ∈ (PsradSymlinks.mk "/data/psrad" psradFileList
          ["rrtmg_lw.nc"]).created_files,
        isfile [("rrtmg_lw.nc", Entry.symlink "/data/psrad/rrtmg_lw.nc"),
                ("keep.txt", Entry.file "data")] f)
    ∧ ((PsradSymlinks.mk "/data/psrad" psradFileList ["rrtmg_lw.nc"]).exitScope
          [("rrtmg_lw.nc", Entry.symlink "/data/psrad/rrtmg_lw.nc"),
           ("keep.txt", Entry.file "data")]).2.1 = Except.ok ()
    ∧ ((PsradSymlinks.mk "/data/psrad" psradFileList ["rrtmg_lw.nc"]).exitScope
          [("rrtmg_lw.nc", Entry.symlink "/data/psrad/rrtmg_lw.nc"),
           ("keep.txt", Entry.file "data")]).2.2
        = [("rrtmg_lw.nc", Entry.symlink "/data/psrad/rrtmg_lw.nc"),
           ("keep.txt", Entry.file "data")].filter
            (fun e => ¬ e.1 ∈ (PsradSymlinks.mk "/data/psrad" psradFileList
              ["rrtmg_lw.nc"]).created_files) :=
  ⟨by decide, by decide,
    (release_removes_exactly_recorded _ _ (by decide) (by decide)).1,
    (release_removes_exactly_recorded _ _ (by decide) (by decide)).2⟩

/-- C3: starting from a working directory containing none of the four
required filenames, Acquire creates exactly the four aliases and Release
removes exactly those four, restoring the directory to its initial
state. -/
theorem acquire_release_round_trip (path : String) (fs : Fs)
    (habs : ∀ f ∈ psradFileList, isfile fs f = false) :
    ((PsradSymlinks.mk path psradFileList []).enter fs).1.created_files
        = psradFileList
    ∧ (((PsradSymlinks.mk path psradFileList []).enter fs).1.exitScope
        ((PsradSymlinks.mk path psradFileList []).enter fs).2).2.1
        = Except.ok ()
    ∧ (((PsradSymlinks.mk path psradFileList []).enter fs).1.exitScope
        ((PsradSymlinks.mk path psradFileList []).enter fs).2).2.2 = fs := by
  have h := enterLoop_eq psradFileList ⟨path, psradFileList, []⟩ fs (by decide)
  have hfil : psradFileList.filter (fun f => !isfile fs f) = psradFileList := by
    apply List.filter_eq_self.mpr
    intro f hf
    simp [habs f hf]
  have hcr : ((PsradSymlinks.mk path psradFileList []).enter fs).1.created_files
      = psradFileList := by
    show (enterLoop psradFileList ⟨path, psradFileList, []⟩ fs).1.created_files = _
    rw [h]
    simp [hfil]
  have hfs1 : ((PsradSymlinks.mk path psradFileList []).enter fs).2
      = fs ++ psradFileList.map
          (fun f => (f, Entry.symlink (path_join path f))) := by
    show (enterLoop psradFileList ⟨path, psradFileList, []⟩ fs).2 = _
    rw [h]
    simp [hfil]
  have hnd : psradFileList.Nodup := by decide
  have hall : ∀ f ∈ psradFileList,
      isfile (fs ++ psradFileList.map
        (fun g => (g, Entry.symlink (path_join path g)))) f := by
    intro f hf
    exact isfile_append_map fs psradFileList
      (fun g => Entry.symlink (path_join path g)) f hf
  have hrm := removeAll_eq psradFileList
    (fs ++ psradFileList.map (fun g => (g, Entry.symlink (path_join path g))))
    hnd hall
  have hfinal : (fs ++ psradFileList.map
        (fun g => (g, Entry.symlink (path_join path g)))).filter
        (fun e => ¬ e.1 ∈ psradFileList) = fs := by
    rw [List.filter_append]
    rw [filter_not_mem_eq fs psradFileList habs]
    rw [filter_map_links_nil psradFileList
      (fun g => Entry.symlink (path_join path g)) psradFileList (fun f hf => hf)]
    simp
  refine ⟨hcr, ?_, ?_⟩
  · show (removeAll
        (((PsradSymlinks.mk path psradFileList []).enter fs).1.created_files)
        (((PsradSymlinks.mk path psradFileList []).enter fs).2)).1 = _
    rw [hcr, hfs1, hrm]
  · show (removeAll
        (((PsradSymlinks.mk path psradFileList []).enter fs).1.created_files)
        (((PsradSymlinks.mk path psradFileList []).enter fs).2)).2 = fs
    rw [hcr, hfs1, hrm]
    exact hfinal

/-- C3 witness: the round trip on a directory that holds one unrelated
file and none of the four required filenames. -/
theorem acquire_release_round_trip_witness :
    (∀ f ∈ psradFileList, isfile [("notes.txt", Entry.file "x")] f = false)
    ∧ ((PsradSymlinks.mk "/data/psrad" psradFileList []).enter
        [("notes.txt", Entry.file "x")]).1.created_files = psradFileList
    ∧ (((PsradSymlinks.mk "/data/psrad" psradFileList []).enter
        [("notes.txt", Entry.file "x")]).1.exitScope
        ((PsradSymlinks.mk "/data/psrad" psradFileList []).enter
          [("notes.txt", Entry.file "x")]).2).2.1 = Except.ok ()
    ∧ (((PsradSymlinks.mk "/data/psrad" psradFileList []).enter
        [("notes.txt", Entry.file "x")]).1.exitScope
        ((PsradSymlinks.mk "/data/psrad" psradFileList []).enter
          [("notes.txt", Entry.file "x")]).2).2.2
        = [("notes.txt", Entry.file "x")] :=
  ⟨by decide,
    (acquire_release_round_trip "/data/psrad" _ (by decide)).1,
    (acquire_release_round_trip "/data/psrad" _ (by decide)).2.1,
    (acquire_release_round_trip "/data/psrad" _ (by decide)).2.2⟩

/-- Evaluating the wrapper with a set environment: the callable's result
is passed through, and the created aliases are removed from the
callable's final directory, provided the removals succeed. -/
theorem wrapper_run_eq {α β : Type} (func : α → Fs → Except String β × Fs)
    (path : String) (a : α) (fs : Fs) (out : Except String β) (fs2 : Fs)
    (hrun : func a (((PsradSymlinks.mk path psradFileList []).enter fs).2)
        = (out, fs2))
    (hkeep : ∀ f ∈ ((PsradSymlinks.mk path psradFileList
        []).enter fs).1.created_files, isfile fs2 f = true) :
    with_psrad_symlinks func (some path) a fs =
      (out, [],
       fs2.filter (fun e =>
         ¬ e.1 ∈ ((PsradSymlinks.mk path psradFileList
           []).enter fs).1.created_files)) := by
  have hnodC : ((PsradSymlinks.mk path psradFileList
      []).enter fs).1.created_files.Nodup := by
    have h := enterLoop_eq psradFileList ⟨path, psradFileList, []⟩ fs (by decide)
    show (enterLoop psradFileList ⟨path, psradFileList, []⟩ fs).1.created_files.Nodup
    rw [h]
    exact List.Nodup.filter _ (by decide)
  have hrm0 := removeAll_eq
    (((PsradSymlinks.mk path psradFileList []).enter fs).1.created_files)
    fs2 hnodC hkeep
  simp only [with_psrad_symlinks, PsradSymlinks.init, PsradSymlinks.exitScope]
  rw [hrun]
  simp [hrm0]

/-- C4 counterexample: a callable that returns 42 after itself removing
the created alias `rrtmg_lw.nc`; the wrapped call does not return 42 —
the release-time removal fails and that error is what the caller sees. -/
theorem wrapper_passthrough_cex :
    (with_psrad_symlinks
        (fun (_ : Unit) (fs : Fs) =>
          (Except.ok (42 : Int), fs.filter (fun e => ¬ e.1 = "rrtmg_lw.nc")))
        (some "/data/psrad") () []).1
      = Except.error "FileNotFoundError: rrtmg_lw.nc"
    ∧ (with_psrad_symlinks
        (fun (_ : Unit) (fs : Fs) =>
          (Except.ok (42 : Int), fs.filter (fun e => ¬ e.1 = "rrtmg_lw.nc")))
        (some "/data/psrad") () []).1
      ≠ Except.ok 42 := by
  have h1 : (with_psrad_symlinks
      (fun (_ : Unit) (fs : Fs) =>
        (Except.ok (42 : Int), fs.filter (fun e => ¬ e.1 = "rrtmg_lw.nc")))
      (some "/data/psrad") () []).1
      = Except.error "FileNotFoundError: rrtmg_lw.nc" := rfl
  exact ⟨h1, fun hcontra => Except.noConfusion (h1.symm.trans hcontra)⟩

/-- C4 (amended): for every callable and argument, if the callable
returns `x` without raising and leaves the created aliases in place,
then the wrapped call performs Acquire, invokes the callable, returns
`x` unchanged, and performs Release, after which none of the created
aliases exist. -/
theorem wrapper_passthrough {α β : Type} (path : String)
    (func : α → Fs → Except String β × Fs) (a : α) (fs : Fs)
    (x : β) (fs2 : Fs)
    (hrun : func a (((PsradSymlinks.mk path psradFileList []).enter fs).2)
        = (Except.ok x, fs2))
    (hkeep : ∀ f ∈ ((PsradSymlinks.mk path psradFileList
        []).enter fs).1.created_files, isfile fs2 f = true) :
    (with_psrad_symlinks func (some path) a fs).1 = Except.ok x
    ∧ ∀ f ∈ ((PsradSymlinks.mk path psradFileList
        []).enter fs).1.created_files,
        isfile ((with_psrad_symlinks func (some path) a fs).2.2) f = false := by
  have h := wrapper_run_eq func path a fs (Except.ok x) fs2 hrun hkeep
  constructor
  · rw [h]
  · intro f hf
    rw [h]
    exact isfile_filter_mem fs2 _ f hf

/-- C4 witness: wrapping a callable that returns 7 and does not touch
the directory, on an initially empty working directory. -/
theorem wrapper_passthrough_witness :
    ((fun (_ : Unit) (fs : Fs) => ((Except.ok (7 : Int) : Except String Int), fs)) ()
        (((PsradSymlinks.mk "/data/psrad" psradFileList []).enter []).2)
      = (Except.ok 7,
         ((PsradSymlinks.mk "/data/psrad" psradFileList []).enter []).2))
    ∧ (∀ f ∈ ((PsradSymlinks.mk "/data/psrad" psradFileList
        []).enter []).1.created_files,
        isfile (((PsradSymlinks.mk "/data/psrad" psradFileList
          []).enter []).2) f = true)
    ∧ (with_psrad_symlinks
        (fun (_ : Unit) (fs : Fs) => ((Except.ok (7 : Int) : Except String Int), fs))
        (some "/data/psrad") () []).1 = Except.ok 7
    ∧ ∀ f ∈ ((PsradSymlinks.mk "/data/psrad" psradFileList
        []).enter []).1.created_files,
        isfile ((with_psrad_symlinks
          (fun (_ : Unit) (fs : Fs) => ((Except.ok (7 : Int) : Except String Int), fs))
          (some "/data/psrad") () []).2.2) f = false :=
  ⟨rfl, by decide,
    (wrapper_passthrough "/data/psrad"
      (fun (_ : Unit) (fs : Fs) => ((Except.ok (7 : Int) : Except String Int), fs))
      () [] 7 _ rfl (by decide)).1,
    (wrapper_passthrough "/data/psrad"
      (fun (_ : Unit) (fs : Fs) => ((Except.ok (7 : Int) : Except String Int), fs))
      () [] 7 _ rfl (by decide)).2⟩

/-- C5: with the configuration setting absent, construction fails with
the configuration lookup error, logging the failure, and a wrapped run
leaves the working directory untouched (no filesystem access precedes
the failure); with the setting present, construction succeeds with an
empty created-aliases record. -/
theorem init_configuration {α β : Type} (p : String)
    (func : α → Fs → Except String β × Fs) (a : α) (fs : Fs) :
    PsradSymlinks.init none =
      (Except.error "KeyError: PSRAD_PATH",
       ["Path to PSRAD directory not set."])
    ∧ PsradSymlinks.init (some p) =
      (Except.ok ⟨p, psradFileList, []⟩, [])
    ∧ with_psrad_symlinks func none a fs =
      (Except.error "KeyError: PSRAD_PATH",
       ["Path to PSRAD directory not set."], fs) :=
  ⟨rfl, rfl, rfl⟩

/-- C6: release runs on every exit path — whatever the callable's
outcome `out` (a value or a raised error), the wrapped call's final
directory is the callable's directory with every recorded alias removed,
so no alias survives the scope. -/
theorem release_on_every_path {α β : Type} (path : String)
    (func : α → Fs → Except String β × Fs) (a : α) (fs : Fs)
    (out : Except String β) (fs2 : Fs)
    (hrun : func a (((PsradSymlinks.mk path psradFileList []).enter fs).2)
        = (out, fs2))
    (hkeep : ∀ f ∈ ((PsradSymlinks.mk path psradFileList
        []).enter fs).1.created_files, isfile fs2 f = true) :
    (with_psrad_symlinks func (some path) a fs).2.2
      = fs2.filter (fun e =>
          ¬ e.1 ∈ ((PsradSymlinks.mk path psradFileList
            []).enter fs).1.created_files)
    ∧ ∀ f ∈ ((PsradSymlinks.mk path psradFileList
        []).enter fs).1.created_files,
        isfile ((with_psrad_symlinks func (some path) a fs).2.2) f = false := by
  have h := wrapper_run_eq func path a fs out fs2 hrun hkeep
  constructor
  · rw [h]
  · intro f hf
    rw [h]
    exact isfile_filter_mem fs2 _ f hf

/-- C6 witness: a callable that raises (returns an error outcome) still
has all four created aliases removed by release. -/
theorem release_on_every_path_witness :
    ((fun (_ : Unit) (fs : Fs) => ((Except.error "boom" : Except String Int), fs)) ()
        (((PsradSymlinks.mk "/data/psrad" psradFileList []).enter []).2)
      = (Except.error "boom",
         ((PsradSymlinks.mk "/data/psrad" psradFileList []).enter []).2))
    ∧ (∀ f ∈ ((PsradSymlinks.mk "/data/psrad" psradFileList
        []).enter []).1.created_files,
        isfile (((PsradSymlinks.mk "/data/psrad" psradFileList
          []).enter []).2) f = true)
    ∧ (with_psrad_symlinks
        (fun (_ : Unit) (fs : Fs) => ((Except.error "boom" : Except String Int), fs))
        (some "/data/psrad") () []).2.2
      = (((PsradSymlinks.mk "/data/psrad" psradFileList []).enter []).2).filter
          (fun e => ¬ e.1 ∈ ((PsradSymlinks.mk "/data/psrad" psradFileList
            []).enter []).1.created_files)
    ∧ ∀ f ∈ ((PsradSymlinks.mk "/data/psrad" psradFileList
        []).enter []).1.created_files,
        isfile ((with_psrad_symlinks
          (fun (_ : Unit) (fs : Fs) => ((Except.error "boom" : Except String Int), fs))
          (some "/data/psrad") () []).2.2) f = false :=
  ⟨rfl, by decide,
    (release_on_every_path "/data/psrad"
      (fun (_ : Unit) (fs : Fs) => ((Except.error "boom" : Except String Int), fs))
      () [] (Except.error "boom") _ rfl (by decide)).1,
    (release_on_every_path "/data/psrad"
      (fun (_ : Unit) (fs : Fs) => ((Except.error "boom" : Except String Int), fs))
      () [] (Except.error "boom") _ rfl (by decide)).2⟩

/-- C7 counterexample: after a full acquire/release round trip on an
empty directory the created-aliases record still holds the four
filenames — `__exit__` never empties the record, so the claim that the
record holds no entries after release is false. -/
theorem record_drained_cex :
    (((PsradSymlinks.mk "/data/psrad" psradFileList []).enter []).1.exitScope
        (((PsradSymlinks.mk "/data/psrad" psradFileList []).enter []).2)
      ).1.created_files = psradFileList
    ∧ psradFileList ≠ [] :=
  ⟨rfl, by decide⟩

/-- C7 (amended): the created-aliases record starts empty at
construction and is populated only during acquisition; during release
every recorded alias is removed from the working directory, but the
record itself keeps its entries after release (the instance is simply
discarded). -/
theorem record_lifecycle (path : String) (fs : Fs)
    (st : PsradSymlinks) (fs' : Fs)
    (hnd : st.created_files.Nodup)
    (hall : ∀ f ∈ st.created_files, isfile fs' f) :
    (PsradSymlinks.init (some path)).1 = Except.ok ⟨path, psradFileList, []⟩
    ∧ ((PsradSymlinks.mk path psradFileList []).enter fs).1.created_files
        = psradFileList.filter (fun f => ¬ isfile fs f)
    ∧ (st.exitScope fs').1.created_files = st.created_files
    ∧ ∀ f ∈ st.created_files, isfile ((st.exitScope fs').2.2) f = false := by
  refine ⟨rfl, ?_, rfl, ?_⟩
  · have h := enterLoop_eq psradFileList ⟨path, psradFileList, []⟩ fs (by decide)
    show (enterLoop psradFileList ⟨path, psradFileList, []⟩ fs).1.created_files = _
    rw [h]
    rfl
  · intro f hf
    have h := removeAll_eq st.created_files fs' hnd hall
    show isfile ((removeAll st.created_files fs').2) f = false
    rw [h]
    exact isfile_filter_mem fs' _ f hf

/-- C7 witness: a one-alias record over a directory holding that alias. -/
theorem record_lifecycle_witness :
    (PsradSymlinks.mk "/p" psradFileList ["a.nc"]).created_files.Nodup
    ∧ (∀ f ∈ (PsradSymlinks.mk "/p" psradFileList ["a.nc"]).created_files,
        isfile [("a.nc", Entry.file "x")] f)
    ∧ ((PsradSymlinks.init (some "/p")).1
        = Except.ok ⟨"/p", psradFileList, []⟩
      ∧ ((PsradSymlinks.mk "/p" psradFileList []).enter []).1.created_files
          = psradFileList.filter (fun f => ¬ isfile [] f)
      ∧ ((PsradSymlinks.mk "/p" psradFileList ["a.nc"]).exitScope
          [("a.nc", Entry.file "x")]).1.created_files
          = (PsradSymlinks.mk "/p" psradFileList ["a.nc"]).created_files
      ∧ ∀ f ∈ (PsradSymlinks.mk "/p" psradFileList ["a.nc"]).created_files,
          isfile (((PsradSymlinks.mk "/p" psradFileList ["a.nc"]).exitScope
            [("a.nc", Entry.file "x")]).2.2) f = false) :=
  ⟨by decide, by decide,
    record_lifecycle "/p" [] (PsradSymlinks.mk "/p" psradFileList ["a.nc"])
      [("a.nc", Entry.file "x")] (by decide) (by decide)⟩

/-- C9: if a recorded alias was removed out-of-band before release, the
removal failure propagates out of `__exit__` — release reports an error
rather than swallowing it. -/
theorem release_error_propagates (st : PsradSymlinks) (fs : Fs)
    (h : ∃ f ∈ st.created_files, isfile fs f = false) :
    ∃ e, (st.exitScope fs).2.1 = Except.error e := by
  obtain ⟨e, he⟩ := removeAll_error st.created_files fs h
  exact ⟨e, he⟩

/-- C9 witness: a record holding `rrtmg_lw.nc` released against an
empty directory fails. -/
theorem release_error_propagates_witness :
    (∃ f ∈ (PsradSymlinks.mk "/data/psrad" psradFileList
        ["rrtmg_lw.nc"]).created_files, isfile [] f = false)
    ∧ ∃ e, ((PsradSymlinks.mk "/data/psrad" psradFileList
        ["rrtmg_lw.nc"]).exitScope []).2.1 = Except.error e :=
  ⟨by decide, release_error_propagates _ [] (by decide)⟩

/-- C8: `append_timestep_netcdf` reads the next free time index `t`,
writes the timestamp at index `t`, writes row `t` of every supplied
variable whose declared axes are exactly `(time, plev)`, silently skips
(and leaves untouched) every supplied variable with any other axis
signature, and touches no other variable. -/
theorem append_timestep_spec (nc : NcFile) (data : List (String × List Int))
    (ts : Int) (tv : NcVar)
    (htv : getVar nc "time" = some tv)
    (hnod : (data.map Prod.fst).Nodup)
    (hnotime : "time" ∉ data.map Prod.fst)
    (hpres : ∀ kv ∈ data, (getVar nc kv.1).isSome) :
    ∃ nc', append_timestep_netcdf nc data ts = Except.ok nc'
      ∧ nc'.timeSize = nc.timeSize + 1
      ∧ getVar nc' "time"
          = some { tv with vals := setRow tv.vals nc.timeSize [ts] }
      ∧ (∀ name vals v, (name, vals) ∈ data → getVar nc name = some v →
          v.dims = ["time", "plev"] →
          getVar nc' name = some { v with vals := setRow v.vals nc.timeSize vals })
      ∧ (∀ name vals v, (name, vals) ∈ data → getVar nc name = some v →
          v.dims ≠ ["time", "plev"] → getVar nc' name = some v)
      ∧ (∀ name, name ∉ data.map Prod.fst → name ≠ "time" →
          getVar nc' name = getVar nc name) := by
  have hw := writeVarRow_ok nc "time" nc.timeSize [ts] tv htv
  set nc1 : NcFile :=
    ⟨max nc.timeSize (nc.timeSize + 1),
     setVarList nc.vars "time"
       { tv with vals := setRow tv.vals nc.timeSize [ts] }⟩ with hnc1
  have hsz1 : nc1.timeSize = nc.timeSize + 1 := by
    simp [hnc1, Nat.max_eq_right (Nat.le_succ nc.timeSize)]
  have hgetne : ∀ m, m ≠ "time" → getVar nc1 m = getVar nc m := by
    intro m hm
    have h2 := getVar_set_ne nc.timeSize (max nc.timeSize (nc.timeSize + 1))
      nc.vars "time" m { tv with vals := setRow tv.vals nc.timeSize [ts] } hm
    calc getVar nc1 m
        = getVar ⟨nc.timeSize, nc.vars⟩ m := h2
      _ = getVar nc m := getVar_mk nc nc.timeSize m
  have hgetself : getVar nc1 "time"
      = some { tv with vals := setRow tv.vals nc.timeSize [ts] } :=
    getVar_set_self nc.timeSize nc.vars "time" tv
      { tv with vals := setRow tv.vals nc.timeSize [ts] }
      ((getVar_mk nc nc.timeSize "time").trans htv)
      (max nc.timeSize (nc.timeSize + 1))
  have hpres1 : ∀ kv ∈ data, (getVar nc1 kv.1).isSome := by
    intro kv hkv
    have hne : kv.1 ≠ "time" := by
      intro hEq
      exact hnotime (hEq ▸ List.mem_map_of_mem Prod.fst hkv)
    rw [hgetne kv.1 hne]
    exact hpres kv hkv
  obtain ⟨nc', heq, hsz, huntouched, hwritten⟩ :=
    appendVars_spec data nc1 nc.timeSize hnod hpres1
      (by rw [hsz1])
  refine ⟨nc', ?_, ?_, ?_, ?_, ?_, ?_⟩
  · show append_timestep_netcdf nc data ts = Except.ok nc'
    simp only [append_timestep_netcdf, hw]
    exact heq
  · rw [hsz, hsz1]
  · rw [huntouched "time" hnotime, hgetself]
  · intro name vals v hmem hv hd
    have hne : name ≠ "time" := by
      intro hEq
      exact hnotime (hEq ▸ List.mem_map_of_mem Prod.fst hmem)
    have hv1 : getVar nc1 name = some v := by
      rw [hgetne name hne]
      exact hv
    have hres := hwritten name vals v hmem hv1
    rw [hres, if_pos hd]
  · intro name vals v hmem hv hd
    have hne : name ≠ "time" := by
      intro hEq
      exact hnotime (hEq ▸ List.mem_map_of_mem Prod.fst hmem)
    have hv1 : getVar nc1 name = some v := by
      rw [hgetne name hne]
      exact hv
    have hres := hwritten name vals v hmem hv1
    rw [hres, if_neg hd]
  · intro name hnm hne
    rw [huntouched name hnm, hgetne name hne]

/-- C8 witness: appending `T = [290, 295, 300]` at timestamp 12 to a
file with time length 1, a `(time, plev)` variable `T` and a `(plev,)`
variable `X` supplied alongside. -/
theorem append_timestep_spec_witness :
    (getVar (NcFile.mk 1
        [("time", NcVar.mk ["time"] [[0]]),
         ("T", NcVar.mk ["time", "plev"] [[280, 285, 290]]),
         ("X", NcVar.mk ["plev"] [[1, 2, 3]])]) "time"
      = some (NcVar.mk ["time"] [[0]]))
    ∧ ((([("T", [290, 295, 300]), ("X", [9, 9, 9])] :
        List (String × List Int)).map Prod.fst).Nodup)
    ∧ ("time" ∉ ([("T", [290, 295, 300]), ("X", [9, 9, 9])] :
        List (String × List Int)).map Prod.fst)
    ∧ (∀ kv ∈ ([("T", [290, 295, 300]), ("X", [9, 9, 9])] :
        List (String × List Int)),
        (getVar (NcFile.mk 1
          [("time", NcVar.mk ["time"] [[0]]),
           ("T", NcVar.mk ["time", "plev"] [[280, 285, 290]]),
           ("X", NcVar.mk ["plev"] [[1, 2, 3]])]) kv.1).isSome)
    ∧ ∃ nc', append_timestep_netcdf (NcFile.mk 1
        [("time", NcVar.mk ["time"] [[0]]),
         ("T", NcVar.mk ["time", "plev"] [[280, 285, 290]]),
         ("X", NcVar.mk ["plev"] [[1, 2, 3]])])
        [("T", [290, 295, 300]), ("X", [9, 9, 9])] 12 = Except.ok nc'
      ∧ nc'.timeSize = (NcFile.mk 1
          [("time", NcVar.mk ["time"] [[0]]),
           ("T", NcVar.mk ["time", "plev"] [[280, 285, 290]]),
           ("X", NcVar.mk ["plev"] [[1, 2, 3]])]).timeSize + 1
      ∧ getVar nc' "time"
          = some { NcVar.mk ["time"] [[0]] with
              vals := setRow (NcVar.mk ["time"] [[0]]).vals 1 [12] }
      ∧ (∀ name vals v,
          (name, vals) ∈ ([("T", [290, 295, 300]), ("X", [9, 9, 9])] :
            List (String × List Int)) →
          getVar (NcFile.mk 1
            [("time", NcVar.mk ["time"] [[0]]),
             ("T", NcVar.mk ["time", "plev"] [[280, 285, 290]]),
             ("X", NcVar.mk ["plev"] [[1, 2, 3]])]) name = some v →
          v.dims = ["time", "plev"] →
          getVar nc' name = some { v with vals := setRow v.vals 1 vals })
      ∧ (∀ name vals v,
          (name, vals) ∈ ([("T", [290, 295, 300]), ("X", [9, 9, 9])] :
            List (String × List Int)) →
          getVar (NcFile.mk 1
            [("time", NcVar.mk ["time"] [[0]]),
             ("T", NcVar.mk ["time", "plev"] [[280, 285, 290]]),
             ("X", NcVar.mk ["plev"] [[1, 2, 3]])]) name = some v →
          v.dims ≠ ["time", "plev"] → getVar nc' name = some v)
      ∧ (∀ name, name ∉ ([("T", [290, 295, 300]), ("X", [9, 9, 9])] :
          List (String × List Int)).map Prod.fst → name ≠ "time" →
          getVar nc' name = getVar (NcFile.mk 1
            [("time", NcVar.mk ["time"] [[0]]),
             ("T", NcVar.mk ["time", "plev"] [[280, 285, 290]]),
             ("X", NcVar.mk ["plev"] [[1, 2, 3]])]) name) :=
  ⟨by decide, by decide, by decide, by decide,
    append_timestep_spec _ _ 12 (NcVar.mk ["time"] [[0]])
      (by decide) (by decide) (by decide) (by decide)⟩

/-- C10: the timestamp is written unconditionally before the variable
loop examines anything — when no supplied variable has axes
`(time, plev)` (in particular for an empty mapping) the call still
extends the time axis by one and records the timestamp, leaving every
variable other than `time` untouched. -/
theorem append_timestep_time_always (nc : NcFile)
    (data : List (String × List Int)) (ts : Int) (tv : NcVar)
    (htv : getVar nc "time" = some tv)
    (hskip : ∀ kv ∈ data, (getVar nc kv.1).isSome ∧
        (getVar nc kv.1).map NcVar.dims ≠ some ["time", "plev"]) :
    append_timestep_netcdf nc data ts =
      Except.ok ⟨nc.timeSize + 1,
        setVarList nc.vars "time"
          { tv with vals := setRow tv.vals nc.timeSize [ts] }⟩ := by
  have hw := writeVarRow_ok nc "time" nc.timeSize [ts] tv htv
  set nc1 : NcFile :=
    ⟨max nc.timeSize (nc.timeSize + 1),
     setVarList nc.vars "time"
       { tv with vals := setRow tv.vals nc.timeSize [ts] }⟩ with hnc1
  have hgetne : ∀ m, m ≠ "time" → getVar nc1 m = getVar nc m := by
    intro m hm
    have h2 := getVar_set_ne nc.timeSize (max nc.timeSize (nc.timeSize + 1))
      nc.vars "time" m { tv with vals := setRow tv.vals nc.timeSize [ts] } hm
    calc getVar nc1 m
        = getVar ⟨nc.timeSize, nc.vars⟩ m := h2
      _ = getVar nc m := getVar_mk nc nc.timeSize m
  have hgetself : getVar nc1 "time"
      = some { tv with vals := setRow tv.vals nc.timeSize [ts] } :=
    getVar_set_self nc.timeSize nc.vars "time" tv
      { tv with vals := setRow tv.vals nc.timeSize [ts] }
      ((getVar_mk nc nc.timeSize "time").trans htv)
      (max nc.timeSize (nc.timeSize + 1))
  have hskip1 : ∀ kv ∈ data, (getVar nc1 kv.1).isSome ∧
      (getVar nc1 kv.1).map NcVar.dims ≠ some ["time", "plev"] := by
    intro kv hkv
    by_cases hm : kv.1 = "time"
    · rw [hm, hgetself]
      have h0 := (hskip kv hkv).2
      rw [hm, htv] at h0
      constructor
      · rfl
      · simpa using h0
    · rw [hgetne kv.1 hm]
      exact hskip kv hkv
  have hloop := appendVars_skip data nc1 nc.timeSize hskip1
  show append_timestep_netcdf nc data ts = _
  simp only [append_timestep_netcdf, hw]
  rw [hloop]
  have hmax : max nc.timeSize (nc.timeSize + 1) = nc.timeSize + 1 :=
    Nat.max_eq_right (Nat.le_succ nc.timeSize)
  rw [hnc1, hmax]

/-- C10 witness: a data mapping supplying only a `(plev,)` variable
still extends the time axis and records the timestamp. -/
theorem append_timestep_time_always_witness :
    (getVar (NcFile.mk 1
        [("time", NcVar.mk ["time"] [[0]]),
         ("X", NcVar.mk ["plev"] [[1, 2, 3]])]) "time"
      = some (NcVar.mk ["time"] [[0]]))
    ∧ (∀ kv ∈ ([("X", [9, 9, 9])] : List (String × List Int)),
        (getVar (NcFile.mk 1
          [("time", NcVar.mk ["time"] [[0]]),
           ("X", NcVar.mk ["plev"] [[1, 2, 3]])]) kv.1).isSome ∧
        (getVar (NcFile.mk 1
          [("time", NcVar.mk ["time"] [[0]]),
           ("X", NcVar.mk ["plev"] [[1, 2, 3]])]) kv.1).map NcVar.dims
          ≠ some ["time", "plev"])
    ∧ append_timestep_netcdf (NcFile.mk 1
        [("time", NcVar.mk ["time"] [[0]]),
         ("X", NcVar.mk ["plev"] [[1, 2, 3]])])
        [("X", [9, 9, 9])] 12 =
      Except.ok ⟨(NcFile.mk 1
          [("time", NcVar.mk ["time"] [[0]]),
           ("X", NcVar.mk ["plev"] [[1, 2, 3]])]).timeSize + 1,
        setVarList (NcFile.mk 1
          [("time", NcVar.mk ["time"] [[0]]),
           ("X", NcVar.mk ["plev"] [[1, 2, 3]])]).vars "time"
          { NcVar.mk ["time"] [[0]] with
            vals := setRow (NcVar.mk ["time"] [[0]]).vals 1 [12] }⟩ :=
  ⟨by decide, by decide,
    append_timestep_time_always _ _ 12 (NcVar.mk ["time"] [[0]])
      (by decide) (by decide)⟩
